import Mathlib

/-!
Shallow embedding of the InventoryUI canvas editor (src/src/ipCheck.ts) and its
location-check collaborator (src/src/pinpro.tsx).  Coordinates, camera values
and item ids are modelled as rationals (exact arithmetic standing for the
program's numeric values); fallible and effectful code is modelled by explicit
outcome types and oracle functions for the entropy sources (Date.now,
Math.random), the remote server and canvas text measurement.
-/

namespace InventoryUI

/-! Constants from ipCheck.ts. -/

def GRID : ℚ := 30

def MAX_UNDO : Nat := 50

def LINE_HIT : ℚ := 6

def MIN_ZOOM : ℚ := 1/10

def MAX_ZOOM : ℚ := 5

def BATCH_SIZE : Nat := 10

/-! JavaScript string and number helpers used by the handlers.  The whitespace
set and upper-casing are the ASCII fragment of the JS semantics, which covers
every input the claims speak about. -/

def jsWhitespace (c : Char) : Bool :=
  c = ' ' || c = '\t' || c = '\n' || c = '\r' || c = '\x0b' || c = '\x0c'

/-- Model of `String.prototype.trimStart`. -/
def jsTrimStart (s : String) : String :=
  String.mk (s.data.dropWhile jsWhitespace)

/-- Model of `String.prototype.trimEnd`. -/
def jsTrimEnd (s : String) : String :=
  String.mk ((s.data.reverse.dropWhile jsWhitespace).reverse)

/-- Model of `String.prototype.trim`. -/
def jsTrim (s : String) : String :=
  jsTrimEnd (jsTrimStart s)

/-- Model of `String.prototype.toUpperCase` (ASCII letters). -/
def jsToUpperCase (s : String) : String :=
  String.mk (s.data.map Char.toUpper)

def hexDigitVal (c : Char) : Option Nat :=
  if '0' ≤ c ∧ c ≤ '9' then some (c.toNat - '0'.toNat)
  else if 'a' ≤ c ∧ c ≤ 'f' then some (c.toNat - 'a'.toNat + 10)
  else if 'A' ≤ c ∧ c ≤ 'F' then some (c.toNat - 'A'.toNat + 10)
  else none

def decDigitVal (c : Char) : Option Nat :=
  if '0' ≤ c ∧ c ≤ '9' then some (c.toNat - '0'.toNat) else none

def readDigits (digit : Char → Option Nat) (base : Nat) : List Char → Nat → Option Nat
  | [], acc => some acc
  | c :: rest, acc =>
    match digit c with
    | some d => readDigits digit base rest (acc * base + d)
    | none => some acc

/-- Model of JS `parseInt(s)` (radix unspecified): skip leading whitespace, an
optional sign, an optional `0x`/`0X` hex prefix, then leading digits; `NaN`
(here `none`) when no digit follows.  Trailing garbage is ignored. -/
def jsParseInt (s : String) : Option ℤ :=
  let cs := s.data.dropWhile jsWhitespace
  let (sgn, cs2) : ℤ × List Char :=
    match cs with
    | '-' :: rest => (-1, rest)
    | '+' :: rest => (1, rest)
    | _ => (1, cs)
  match cs2 with
  | '0' :: c :: rest =>
    if c = 'x' ∨ c = 'X' then
      match rest with
      | [] => none
      | d :: _ =>
        match hexDigitVal d with
        | none => none
        | some _ => (readDigits hexDigitVal 16 (rest.takeWhile (fun e => (hexDigitVal e).isSome)) 0).map (fun v => sgn * v)
    else
      (readDigits decDigitVal 10 (('0' :: c :: rest).takeWhile (fun e => (decDigitVal e).isSome)) 0).map (fun v => sgn * v)
  | cs3 =>
    match cs3.takeWhile (fun e => (decDigitVal e).isSome) with
    | [] => none
    | ds => (readDigits decDigitVal 10 ds 0).map (fun v => sgn * v)

/-! Geometry helpers from ipCheck.ts. -/

/-- `snap`: `Math.round(v / GRID) * GRID`; Mathlib's `round` on ℚ is floor of
`x + 1/2`, which is exactly JS `Math.round`. -/
def snap (v : ℚ) : ℚ :=
  ((round (v / GRID) : ℤ) : ℚ) * GRID

structure NormBox where
  x : ℚ
  y : ℚ
  w : ℚ
  h : ℚ
deriving DecidableEq

/-- `boxNorm` from ipCheck.ts. -/
def boxNorm (x1 y1 x2 y2 : ℚ) : NormBox :=
  { x := min x1 x2, y := min y1 y2, w := |x2 - x1|, h := |y2 - y1| }

/-- `rectsHit` from ipCheck.ts. -/
def rectsHit (ax ay aw ah rx ry rw rh : ℚ) : Bool :=
  decide (ax < rx + rw) && decide (ax + aw > rx) && decide (ay < ry + rh) && decide (ay + ah > ry)

/-- The endpoint-containment test the marquee applies to line endpoints
(`it.x1 >= n.x && it.x1 <= n.x + n.w && it.y1 >= n.y && it.y1 <= n.y + n.h`). -/
def pointInBox (px py : ℚ) (n : NormBox) : Bool :=
  decide (px ≥ n.x) && decide (px ≤ n.x + n.w) && decide (py ≥ n.y) && decide (py ≤ n.y + n.h)

/-! The item data model from ipCheck.ts. -/

inductive Status where
  | green
  | yellow
  | red
deriving DecidableEq

structure LocationItem where
  id : ℚ
  name : String
  x : ℚ
  y : ℚ
  status : Status
  width : ℚ
  height : ℚ
deriving DecidableEq

structure TextItem where
  id : ℚ
  content : String
  x : ℚ
  y : ℚ
  fontSize : ℚ
deriving DecidableEq

structure LineItem where
  id : ℚ
  x1 : ℚ
  y1 : ℚ
  x2 : ℚ
  y2 : ℚ
deriving DecidableEq

inductive InventoryItem where
  | location : LocationItem → InventoryItem
  | text : TextItem → InventoryItem
  | line : LineItem → InventoryItem
deriving DecidableEq

def InventoryItem.id : InventoryItem → ℚ
  | .location l => l.id
  | .text t => t.id
  | .line l => l.id

def docIds (items : List InventoryItem) : List ℚ :=
  items.map InventoryItem.id

/-! Document plus undo-history state (the `items` state and `historyRef`). -/

structure AppState where
  items : List InventoryItem
  history : List (List InventoryItem)
deriving DecidableEq

/-- `pushHistory`: `historyRef.current = [...historyRef.current.slice(-(MAX_UNDO - 1)), deepCopy(items)]`.
The JSON deep copy is the identity on immutable values. -/
def pushHistory (items : List InventoryItem) (hist : List (List InventoryItem)) :
    List (List InventoryItem) :=
  hist.drop (hist.length - (MAX_UNDO - 1)) ++ [items]

/-- `handleUndo` (and the Ctrl/Cmd+Z handler): pop the snapshot stack onto the
live document; a no-op when the stack is empty. -/
def handleUndo (s : AppState) : AppState :=
  match s.history.getLast? with
  | none => s
  | some snapDoc => { items := snapDoc, history := s.history.dropLast }

/-! Camera: the wheel-zoom handler and world/screen maps. -/

structure Cam where
  x : ℚ
  y : ℚ
  z : ℚ
deriving DecidableEq

/-- `handleWheel` from ipCheck.ts: derive a factor from the wheel delta
(finer without Ctrl), clamp the new zoom to `[MIN_ZOOM, MAX_ZOOM]`, and
recompute the translation through `ratio = newZ / cur.z`. -/
def handleWheel (cur : Cam) (sx sy deltaY : ℚ) (ctrlKey : Bool) : Cam :=
  let sensitivity : ℚ := if ctrlKey then 1/100 else 1/1000
  let factor : ℚ := 1 + (-deltaY * sensitivity)
  let newZ : ℚ := max MIN_ZOOM (min MAX_ZOOM (cur.z * factor))
  let r : ℚ := newZ / cur.z
  { x := sx - (sx - cur.x) * r, y := sy - (sy - cur.y) * r, z := newZ }

/-- `toWorld` from ipCheck.ts applied to the screen point `(sx, sy)`. -/
def toWorld (cam : Cam) (sx sy : ℚ) : ℚ × ℚ :=
  ((sx - cam.x) / cam.z, (sy - cam.y) / cam.z)

structure WheelEvt where
  sx : ℚ
  sy : ℚ
  deltaY : ℚ
  ctrlKey : Bool

/-- A finite sequence of wheel events applied in order. -/
def wheelSteps (cam : Cam) (evs : List WheelEvt) : Cam :=
  evs.foldl (fun c e => handleWheel c e.sx e.sy e.deltaY e.ctrlKey) cam

/-! Item creation.  The id of a freshly created item is
`Date.now() + Math.random()`; the two entropy draws are passed in explicitly
(`now`, `rand`). -/

/-- `addLocation` from ipCheck.ts (history snapshot, then append). -/
def addLocation (s : AppState) (now : ℤ) (rand : ℚ) (name : String) (x y : ℚ)
    (status : Status) : AppState :=
  { items := s.items ++ [.location
      { id := (now : ℚ) + rand, name := name, x := snap x, y := snap y,
        status := status, width := 120, height := 40 }],
    history := pushHistory s.items s.history }

/-- `addText` from ipCheck.ts. -/
def addText (s : AppState) (now : ℤ) (rand : ℚ) (content : String) (x y : ℚ) : AppState :=
  { items := s.items ++ [.text
      { id := (now : ℚ) + rand, content := content, x := snap x, y := snap y, fontSize := 14 }],
    history := pushHistory s.items s.history }

/-- `addLine` from ipCheck.ts. -/
def addLine (s : AppState) (now : ℤ) (rand : ℚ) (x1 y1 x2 y2 : ℚ) : AppState :=
  { items := s.items ++ [.line
      { id := (now : ℚ) + rand, x1 := snap x1, y1 := snap y1, x2 := snap x2, y2 := snap y2 }],
    history := pushHistory s.items s.history }

/-! Batch creation (`handleBatch`).  The loop draws `Date.now()` and
`Math.random()` once per item and adds the loop value on top; `oracle k` is
the pair drawn at the k-th iteration. -/

inductive BatchMode where
  | numbers
  | letters
deriving DecidableEq

/-- The body of the `handleBatch` loop: one Location per value, walking the
serpentine layout (`yOff += GRID*2` per item; every 10th item resets `yOff`
and advances `xOff` by `GRID*5`).  `start + k` is the loop value (a number or
a char code) and `cnt` the number of remaining iterations. -/
def batchLoop (oracle : Nat → ℤ × ℚ) (mkName : ℤ → String) (start : ℤ) :
    Nat → Nat → ℚ → ℚ → List LocationItem
  | _, 0, _, _ => []
  | k, cnt + 1, yOff, xOff =>
    let v : ℤ := start + (k : ℤ)
    let e := oracle k
    { id := ((e.1 : ℚ) + e.2) + (v : ℚ), name := mkName v,
      x := snap xOff, y := snap yOff, status := .green, width := 120, height := 40 } ::
    (if (k + 1) % 10 = 0 then
      batchLoop oracle mkName start (k + 1) cnt (GRID * 2) (xOff + GRID * 5)
    else
      batchLoop oracle mkName start (k + 1) cnt (yOff + GRID * 2) xOff)

/-- `handleBatch` from ipCheck.ts: validate the base name and the numeric or
letter range, then (only when the whole batch is valid) snapshot history and
append every generated Location. -/
def handleBatch (s : AppState) (oracle : Nat → ℤ × ℚ) (bBase bFrom bTo : String)
    (bMode : BatchMode) : AppState :=
  if jsTrim bBase = "" then s
  else
    match bMode with
    | .letters =>
      match (jsToUpperCase (jsTrim bFrom)).data, (jsToUpperCase (jsTrim bTo)).data with
      | [ca], [cb] =>
        if ca.toNat > cb.toNat then s
        else if ca.toNat < 65 ∨ cb.toNat > 90 then s
        else
          { items := s.items ++
              (batchLoop oracle
                (fun v => jsTrimStart bBase ++ String.mk [Char.ofNat v.toNat])
                (ca.toNat : ℤ) 0 (cb.toNat - ca.toNat + 1) (GRID * 2) (GRID * 2)).map .location,
            history := pushHistory s.items s.history }
      | _, _ => s
    | .numbers =>
      match jsParseInt bFrom, jsParseInt bTo with
      | some f, some t =>
        if f > t then s
        else
          { items := s.items ++
              (batchLoop oracle (fun v => jsTrimStart bBase ++ toString v)
                f 0 (t - f + 1).toNat (GRID * 2) (GRID * 2)).map .location,
            history := pushHistory s.items s.history }
      | _, _ => s

/-! Edit handlers. -/

/-- `handleSaveEdit` (paramName variant, which edits both Locations and Text;
the site variant has the identical Text branch): history is snapshotted as
soon as an item is being edited, and only then is the trimmed replacement
validated — an empty value returns early, leaving the document untouched, the
snapshot pushed, and the editor open.  Returns the new state together with
the new `editingItem`. -/
def handleSaveEdit (s : AppState) (editingItem : Option InventoryItem)
    (editName editContent : String) : AppState × Option InventoryItem :=
  match editingItem with
  | none => (s, none)
  | some e =>
    let hist := pushHistory s.items s.history
    match e with
    | .location l =>
      if jsTrim editName = "" then ({ items := s.items, history := hist }, some e)
      else
        ({ items := s.items.map (fun it =>
              match it with
              | .location l2 => if l2.id = l.id then .location { l2 with name := jsTrim editName } else it
              | _ => it),
           history := hist }, none)
    | .text t =>
      if jsTrim editContent = "" then ({ items := s.items, history := hist }, some e)
      else
        ({ items := s.items.map (fun it =>
              match it with
              | .text t2 => if t2.id = t.id then .text { t2 with content := jsTrim editContent } else it
              | _ => it),
           history := hist }, none)
    | .line _ => ({ items := s.items, history := hist }, none)

/-- `handleSaveLocName` (site variant): rename the side-panel Location;
rejected without any effect when no panel is open or the trimmed name is
empty. -/
def handleSaveLocName (s : AppState) (sidePanelLocId : Option ℚ) (editName : String) : AppState :=
  match sidePanelLocId with
  | none => s
  | some lid =>
    if jsTrim editName = "" then s
    else
      { items := s.items.map (fun it =>
          match it with
          | .location l => if l.id = lid then .location { l with name := jsTrim editName } else it
          | _ => it),
        history := pushHistory s.items s.history }

/-- The Delete/Backspace handler: when the selection is non-empty, snapshot
history and drop every selected item. -/
def deleteSelected (s : AppState) (selected : List ℚ) : AppState :=
  if selected.isEmpty then s
  else
    { items := s.items.filter (fun it => !(selected.contains it.id)),
      history := pushHistory s.items s.history }

/-! The drag gesture (`handleMouseDown` on a hit item followed by
`handleMouseMove` while dragging).  The mouse-down captures the original
positions of every item in the resolved selection and snapshots history; each
move recomputes a snapped delta from the primary anchor and rewrites the
captured items' positions from the captured originals. -/

structure DragPos where
  x : ℚ
  y : ℚ
  x1 : Option ℚ
  y1 : Option ℚ
  x2 : Option ℚ
  y2 : Option ℚ

structure DragSession where
  startX : ℚ
  startY : ℚ
  primaryId : ℚ
  primaryX : ℚ
  primaryY : ℚ
  positions : List (ℚ × DragPos)

/-- The `positions` map built at mouse-down: for every selected item, its
current position (line endpoints stored in the optional fields). -/
def capturePositions (items : List InventoryItem) (ids : List ℚ) : List (ℚ × DragPos) :=
  items.filterMap (fun it =>
    if ids.contains it.id then
      some (it.id,
        match it with
        | .line l => ⟨l.x1, l.y1, some l.x1, some l.y1, some l.x2, some l.y2⟩
        | .location l => ⟨l.x, l.y, none, none, none, none⟩
        | .text t => ⟨t.x, t.y, none, none, none, none⟩)
    else none)

def lookupPos (positions : List (ℚ × DragPos)) (i : ℚ) : Option DragPos :=
  (positions.find? (fun p => p.1 = i)).map (fun p => p.2)

/-- One `handleMouseMove` step while dragging: delta = snapped primary target
minus primary anchor, applied rigidly to every captured item from its
captured original position. -/
def dragMoveStep (d : DragSession) (items : List InventoryItem) (wx wy : ℚ) :
    List InventoryItem :=
  let rawDx := wx - d.startX
  let rawDy := wy - d.startY
  let sx := snap (d.primaryX + rawDx)
  let sy := snap (d.primaryY + rawDy)
  let dx := sx - d.primaryX
  let dy := sy - d.primaryY
  items.map (fun it =>
    match lookupPos d.positions it.id with
    | none => it
    | some init =>
      match it with
      | .line l => .line { l with x1 := init.x1.getD 0 + dx, y1 := init.y1.getD 0 + dy,
                                  x2 := init.x2.getD 0 + dx, y2 := init.y2.getD 0 + dy }
      | .location l => .location { l with x := init.x + dx, y := init.y + dy }
      | .text t => .text { t with x := init.x + dx, y := init.y + dy })

/-- A whole drag gesture: mouse-down on the item anchored at
`(primaryX, primaryY)` with resolved selection `ids` (history is snapshotted
exactly once, at the down event), then the listed move points, then mouse-up
(which only clears transient state). -/
def dragGesture (s : AppState) (ids : List ℚ) (primaryX primaryY startX startY : ℚ)
    (moves : List (ℚ × ℚ)) : AppState :=
  let d : DragSession :=
    ⟨startX, startY, 0, primaryX, primaryY, capturePositions s.items ids⟩
  { items := moves.foldl (fun its m => dragMoveStep d its m.1 m.2) s.items,
    history := pushHistory s.items s.history }

/-! Operation traces for the id-uniqueness claim: sequences of add and
batch-add operations interleaved with deletions. -/

inductive DocOp where
  | addLoc (now : ℤ) (rand : ℚ) (name : String) (x y : ℚ)
  | addTxt (now : ℤ) (rand : ℚ) (content : String) (x y : ℚ)
  | addLn (now : ℤ) (rand : ℚ) (x1 y1 x2 y2 : ℚ)
  | batch (oracle : Nat → ℤ × ℚ) (base bFrom bTo : String) (mode : BatchMode)
  | del (ids : List ℚ)

def applyOp (s : AppState) : DocOp → AppState
  | .addLoc now rand name x y => addLocation s now rand name x y .green
  | .addTxt now rand content x y => addText s now rand content x y
  | .addLn now rand x1 y1 x2 y2 => addLine s now rand x1 y1 x2 y2
  | .batch oracle base bFrom bTo mode => handleBatch s oracle base bFrom bTo mode
  | .del ids => deleteSelected s ids

def applyOps (s : AppState) (ops : List DocOp) : AppState :=
  ops.foldl applyOp s

/-- The id values an operation draws from the entropy sources (for a batch,
the ids it would create; creation does not depend on the prior document). -/
def issuedIdsOp : DocOp → List ℚ
  | .addLoc now rand _ _ _ => [(now : ℚ) + rand]
  | .addTxt now rand _ _ _ => [(now : ℚ) + rand]
  | .addLn now rand _ _ _ _ => [(now : ℚ) + rand]
  | .batch oracle base bFrom bTo mode =>
      docIds (handleBatch ⟨[], []⟩ oracle base bFrom bTo mode).items
  | .del _ => []

def issuedIds (ops : List DocOp) : List ℚ :=
  ops.flatMap issuedIdsOp

/-! The location-check collaborator (src/src/pinpro.tsx, the site/credentials
variant implementing policy (a)).  The network outcome is made explicit: the
HTTP layer either yields the parsed JSON array of stock records, a 404, or
any other failure (a non-ok status, a transport error, a thrown exception).
`checkLocation` never propagates an error: every arm returns a result. -/

structure StockItem where
  tag : ℤ
  itemType : String
  vstockNo : String
deriving DecidableEq

inductive LookupOutcome where
  | success (items : List StockItem)
  | notFound
  | failure
deriving DecidableEq

structure LocationCheckResult where
  status : Status
  items : List StockItem
deriving DecidableEq

/-- `checkLocation` from pinpro.tsx: 404 and every error path resolve to
`{status: yellow, items: []}`; a successful lookup returns the server's item
list with `red` when it is non-empty and `green` otherwise. -/
def checkLocation : LookupOutcome → LocationCheckResult
  | .success items => { status := if items.length > 0 then .red else .green, items := items }
  | .notFound => { status := .yellow, items := [] }
  | .failure => { status := .yellow, items := [] }

/-! The sync orchestrator (`handleSync`, site/credentials variant; the
paramName variant is identical except for its configuration guard and the
arguments forwarded to `checkLocation`).  The remote collaborator is the
oracle `check`, mapping a location name to the `checkLocation` result for it
(the other call arguments are fixed for the whole pass). -/

structure SiteCheckResult where
  siteId : ℤ
  shortCode : String
  yardName : String
deriving DecidableEq

structure SyncConfig where
  serverUrl : String
  selectedSite : Option SiteCheckResult
  username : String
  password : String

def InventoryItem.asLocation : InventoryItem → Option LocationItem
  | .location l => some l
  | _ => none

/-- `items.filter((it): it is LocationItem => it.type === 'location')`. -/
def syncLocations (items : List InventoryItem) : List LocationItem :=
  items.filterMap InventoryItem.asLocation

/-- The incremental status patch after a batch: every Location among the
first `checked` sync targets gets the status of its result in `allResults`
(looked up through `locations.findIndex`); results not yet present leave the
item unchanged. -/
def applyStatuses (locations : List LocationItem) (allResults : List LocationCheckResult)
    (checkedIds : List ℚ) (items : List InventoryItem) : List InventoryItem :=
  items.map (fun it =>
    match it with
    | .location l =>
      if checkedIds.contains l.id then
        match locations.findIdx? (fun lo => lo.id = l.id) with
        | none => it
        | some idx =>
          match allResults[idx]? with
          | none => it
          | some r => .location { l with status := r.status }
      else it
    | _ => it)

/-- The `for (let i = 0; i < locations.length; i += BATCH_SIZE)` loop.
Returns the batches issued, the progress values reported after each batch,
the final document items, the per-location result-cache writes, and the
number of server calls.  `fuel` only bounds the recursion; `locations.length`
is always enough since `i` grows by `BATCH_SIZE ≥ 1`. -/
def syncLoop (check : String → LocationCheckResult) (locations : List LocationItem) :
    Nat → List LocationCheckResult → List InventoryItem → Nat →
    List (List LocationItem) × List Nat × List InventoryItem ×
      List (ℚ × List StockItem) × Nat
  | _, _, items, 0 => ([], [], items, [], 0)
  | i, allResults, items, fuel + 1 =>
    if i < locations.length then
      let batch := (locations.drop i).take BATCH_SIZE
      let results := batch.map (fun loc => check loc.name)
      let acc := allResults ++ results
      let cacheAdd := (batch.zip results).map (fun p => (p.1.id, p.2.items))
      let checked := min (i + BATCH_SIZE) locations.length
      let checkedIds := (locations.take checked).map (fun l => l.id)
      let items2 := applyStatuses locations acc checkedIds items
      let rest := syncLoop check locations (i + BATCH_SIZE) acc items2 fuel
      (batch :: rest.1, checked :: rest.2.1, rest.2.2.1,
        cacheAdd ++ rest.2.2.2.1, batch.length + rest.2.2.2.2)
    else ([], [], items, [], 0)

structure SyncOutcome where
  state : AppState
  batches : List (List LocationItem)
  progress : List Nat
  cache : List (ℚ × List StockItem)
  calls : Nat
  openedSettings : Bool

/-- `handleSync`: configuration guard (redirecting to settings), no-op on a
document without Locations, otherwise one history snapshot followed by the
batched pass; the `finally` block clears the syncing flag and progress, so
the returned state is the post-pass quiescent state. -/
def handleSync (cfg : SyncConfig) (check : String → LocationCheckResult)
    (s : AppState) : SyncOutcome :=
  if jsTrim cfg.serverUrl = "" ∨ cfg.selectedSite = none ∨
      jsTrim cfg.username = "" ∨ jsTrim cfg.password = "" then
    { state := s, batches := [], progress := [], cache := [], calls := 0,
      openedSettings := true }
  else
    let locations := syncLocations s.items
    if locations.isEmpty then
      { state := s, batches := [], progress := [], cache := [], calls := 0,
        openedSettings := false }
    else
      let r := syncLoop check locations 0 [] s.items locations.length
      { state := { items := r.2.2.1, history := pushHistory s.items s.history },
        batches := r.1, progress := r.2.1, cache := r.2.2.2.1, calls := r.2.2.2.2,
        openedSettings := false }

/-- A user-level sync invocation.  `handleSync`'s only call site is the sync
button, rendered with `disabled={isSyncing}`, and a disabled button fires no
click events — so while a pass is in flight an invocation attempt never
reaches `handleSync` and has no effect at all. -/
def clickSync (isSyncing : Bool) (cfg : SyncConfig)
    (check : String → LocationCheckResult) (s : AppState) : SyncOutcome :=
  if isSyncing then
    { state := s, batches := [], progress := [], cache := [], calls := 0,
      openedSettings := false }
  else handleSync cfg check s

/-! Marquee (rubber-band) selection from `handleMouseMove` while
`isSelecting`: the text bounding box uses the canvas text measurement, passed
as the oracle `measure`. -/

def marqueeMatch (measure : String → ℚ) (n : NormBox) : InventoryItem → Bool
  | .line l => pointInBox l.x1 l.y1 n || pointInBox l.x2 l.y2 n
  | .location l => rectsHit l.x l.y l.width l.height n.x n.y n.w n.h
  | .text t => rectsHit t.x t.y (measure t.content) t.fontSize n.x n.y n.w n.h

/-- The ids collected into the live marquee selection for the box dragged
from `(x1, y1)` to `(x2, y2)`. -/
def marqueeIds (measure : String → ℚ) (items : List InventoryItem)
    (x1 y1 x2 y2 : ℚ) : List ℚ :=
  let n := boxNorm x1 y1 x2 y2
  (items.filter (marqueeMatch measure n)).map InventoryItem.id

/-! Concrete fixtures used to exercise the definitions at specific inputs. -/

def oracle0 : Nat → ℤ × ℚ := fun _ => (0, 0)

def check0 : String → LocationCheckResult := fun _ => { status := .yellow, items := [] }

def cfg0 : SyncConfig :=
  { serverUrl := "http://server", selectedSite := some ⟨1, "MA", "Yard"⟩,
    username := "u", password := "p" }

def mkLoc25 (k : ℕ) : LocationItem :=
  { id := (k : ℚ), name := "L", x := 0, y := 0, status := .green, width := 120, height := 40 }

def doc25 : List InventoryItem :=
  (List.range 25).map (fun k : ℕ => .location (mkLoc25 k))

def measure0 : String → ℚ := fun _ => 0

/-! General lemmas about history snapshots and undo. -/

theorem pushHistory_getLast (d : List InventoryItem) (h : List (List InventoryItem)) :
    (pushHistory d h).getLast? = some d := by
  simp [pushHistory]

theorem pushHistory_length (d : List InventoryItem) (h : List (List InventoryItem)) :
    (pushHistory d h).length = min (h.length + 1) MAX_UNDO := by
  simp [pushHistory, MAX_UNDO]
  omega

theorem handleUndo_pushHistory (X d : List InventoryItem) (h : List (List InventoryItem)) :
    handleUndo ⟨X, pushHistory d h⟩ = ⟨d, (pushHistory d h).dropLast⟩ := by
  unfold handleUndo
  rw [pushHistory_getLast]

/-- C1: the location-check operation (policy a) is a total function into
results — no call throws to its caller; a failed lookup, a 404 included,
yields status yellow with an empty items list; a successful lookup with at
least one stock item yields red, with zero items green, and in the success
cases the returned items list equals the server-reported list. -/
theorem checkLocation_policy_a :
    checkLocation .notFound = { status := .yellow, items := [] } ∧
    checkLocation .failure = { status := .yellow, items := [] } ∧
    (∀ its : List StockItem, its ≠ [] → (checkLocation (.success its)).status = .red) ∧
    (checkLocation (.success [])).status = .green ∧
    (∀ its : List StockItem, (checkLocation (.success its)).items = its) := by
  refine ⟨rfl, rfl, ?_, rfl, fun its => rfl⟩
  intro its h
  simp [checkLocation, List.length_pos, h]

theorem checkLocation_policy_a_witness :
    ([⟨1, "TYPE", "S"⟩] : List StockItem) ≠ [] ∧
    (checkLocation (.success [⟨1, "TYPE", "S"⟩])).status = .red :=
  ⟨by decide, checkLocation_policy_a.2.2.1 [⟨1, "TYPE", "S"⟩] (by decide)⟩

/-- C6: wheel zoom is anchor-preserving — mapping the wheel's screen point to
world coordinates before and after the zoom step yields exactly the same
world point (exact rational arithmetic). -/
theorem handleWheel_anchor (cam : Cam) (sx sy deltaY : ℚ) (ctrlKey : Bool)
    (hmin : MIN_ZOOM ≤ cam.z) (hmax : cam.z ≤ MAX_ZOOM) :
    toWorld (handleWheel cam sx sy deltaY ctrlKey) sx sy = toWorld cam sx sy := by
  have hz : cam.z ≠ 0 := by
    have : (0 : ℚ) < cam.z := lt_of_lt_of_le (by norm_num [MIN_ZOOM]) hmin
    exact ne_of_gt this
  have hzn : max MIN_ZOOM (min MAX_ZOOM
      (cam.z * (1 + (-deltaY * (if ctrlKey then 1/100 else 1/1000))))) ≠ 0 := by
    have : (0 : ℚ) < max MIN_ZOOM (min MAX_ZOOM
        (cam.z * (1 + (-deltaY * (if ctrlKey then 1/100 else 1/1000))))) :=
      lt_of_lt_of_le (by norm_num [MIN_ZOOM]) (le_max_left _ _)
    exact ne_of_gt this
  have key : ∀ a c zn : ℚ, zn ≠ 0 →
      (a - (a - (a - c) * (zn / cam.z))) / zn = (a - c) / cam.z := by
    intro a c zn h2
    field_simp
    ring
  simp only [handleWheel, toWorld, Prod.mk.injEq]
  exact ⟨key sx cam.x _ hzn, key sy cam.y _ hzn⟩

theorem handleWheel_anchor_witness :
    MIN_ZOOM ≤ (⟨0, 0, 1⟩ : Cam).z ∧ (⟨0, 0, 1⟩ : Cam).z ≤ MAX_ZOOM ∧
    toWorld (handleWheel ⟨0, 0, 1⟩ 100 50 (-100) false) 100 50 = toWorld ⟨0, 0, 1⟩ 100 50 :=
  ⟨by norm_num [MIN_ZOOM], by norm_num [MAX_ZOOM],
    handleWheel_anchor ⟨0, 0, 1⟩ 100 50 (-100) false
      (by norm_num [MIN_ZOOM]) (by norm_num [MAX_ZOOM])⟩

theorem handleWheel_z_bounds (cam : Cam) (sx sy deltaY : ℚ) (ctrlKey : Bool) :
    MIN_ZOOM ≤ (handleWheel cam sx sy deltaY ctrlKey).z ∧
    (handleWheel cam sx sy deltaY ctrlKey).z ≤ MAX_ZOOM := by
  simp only [handleWheel]
  exact ⟨le_max_left _ _, max_le (by norm_num [MIN_ZOOM, MAX_ZOOM]) (min_le_left _ _)⟩

/-- C9: the zoom invariant — from any starting zoom inside
`[MIN_ZOOM, MAX_ZOOM]`, any finite sequence of wheel steps with arbitrary
deltas (including ones driving the derived factor to zero or below) keeps
the zoom inside `[MIN_ZOOM, MAX_ZOOM]`. -/
theorem wheelSteps_clamp (cam : Cam) (evs : List WheelEvt)
    (hmin : MIN_ZOOM ≤ cam.z) (hmax : cam.z ≤ MAX_ZOOM) :
    MIN_ZOOM ≤ (wheelSteps cam evs).z ∧ (wheelSteps cam evs).z ≤ MAX_ZOOM := by
  induction evs generalizing cam with
  | nil => exact ⟨hmin, hmax⟩
  | cons e rest ih =>
    have hstep := handleWheel_z_bounds cam e.sx e.sy e.deltaY e.ctrlKey
    exact ih (handleWheel cam e.sx e.sy e.deltaY e.ctrlKey) hstep.1 hstep.2

theorem wheelSteps_clamp_witness :
    MIN_ZOOM ≤ (⟨0, 0, 1⟩ : Cam).z ∧ (⟨0, 0, 1⟩ : Cam).z ≤ MAX_ZOOM ∧
    (MIN_ZOOM ≤ (wheelSteps ⟨0, 0, 1⟩
        [⟨0, 0, 1000000, false⟩, ⟨0, 0, -10000000, true⟩]).z ∧
      (wheelSteps ⟨0, 0, 1⟩ [⟨0, 0, 1000000, false⟩, ⟨0, 0, -10000000, true⟩]).z ≤ MAX_ZOOM) :=
  ⟨by norm_num [MIN_ZOOM], by norm_num [MAX_ZOOM],
    wheelSteps_clamp ⟨0, 0, 1⟩ _ (by norm_num [MIN_ZOOM]) (by norm_num [MAX_ZOOM])⟩

/-- C7: a sync invocation while a pass is in flight is prevented rather than
interleaved.  `handleSync`'s only call site is the sync button, which is
rendered disabled while `isSyncing` holds, so the invocation attempt reaches
nothing: no server call is made, the document, history and result cache are
untouched, and no second pass starts. -/
theorem clickSync_reentrancy (syncing : Bool) (cfg : SyncConfig)
    (check : String → LocationCheckResult) (s : AppState) (h : syncing = true) :
    clickSync syncing cfg check s =
      { state := s, batches := [], progress := [], cache := [], calls := 0,
        openedSettings := false } := by
  subst h
  rfl

theorem clickSync_reentrancy_witness :
    clickSync true cfg0 check0 ⟨[], []⟩ =
      { state := ⟨[], []⟩, batches := [], progress := [], cache := [], calls := 0,
        openedSettings := false } :=
  clickSync_reentrancy true cfg0 check0 ⟨[], []⟩ rfl

/-- C10: a save-edit with an item open in the editor but an empty trimmed
replacement value leaves the document unchanged, yet — because the snapshot
is pushed before the validation check — still pushes a copy of the current
document onto the history stack, consuming one undo slot (stack length
becomes `min (len+1) 50`, evicting the oldest snapshot when the stack is at
capacity), so a subsequent undo replaces the document with an identical copy
instead of reverting an earlier operation. -/
theorem handleSaveEdit_rejected (s : AppState) (e : InventoryItem)
    (editName editContent : String)
    (h : (∃ l, e = .location l ∧ jsTrim editName = "") ∨
         (∃ t, e = .text t ∧ jsTrim editContent = "")) :
    (handleSaveEdit s (some e) editName editContent).1.items = s.items ∧
    (handleSaveEdit s (some e) editName editContent).1.history =
      pushHistory s.items s.history ∧
    (pushHistory s.items s.history).getLast? = some s.items ∧
    (pushHistory s.items s.history).length = min (s.history.length + 1) MAX_UNDO ∧
    (s.history.length = MAX_UNDO →
      pushHistory s.items s.history = s.history.drop 1 ++ [s.items]) ∧
    (handleUndo (handleSaveEdit s (some e) editName editContent).1).items = s.items ∧
    (handleUndo (handleSaveEdit s (some e) editName editContent).1).history =
      (pushHistory s.items s.history).dropLast := by
  have hres : (handleSaveEdit s (some e) editName editContent).1 =
      ⟨s.items, pushHistory s.items s.history⟩ := by
    rcases h with ⟨l, he, ht⟩ | ⟨t, he, ht⟩ <;> subst he <;> simp [handleSaveEdit, ht]
  rw [hres]
  refine ⟨rfl, rfl, pushHistory_getLast _ _, pushHistory_length _ _, ?_, ?_, ?_⟩
  · intro hlen
    simp [pushHistory, hlen, MAX_UNDO]
  · rw [handleUndo_pushHistory]
  · rw [handleUndo_pushHistory]

theorem handleSaveEdit_rejected_witness :
    (handleSaveEdit ⟨[.text ⟨5, "hello", 0, 0, 14⟩], []⟩
        (some (.text ⟨5, "hello", 0, 0, 14⟩)) "" "   ").1.items =
      [.text ⟨5, "hello", 0, 0, 14⟩] ∧
    (handleSaveEdit ⟨[.text ⟨5, "hello", 0, 0, 14⟩], []⟩
        (some (.text ⟨5, "hello", 0, 0, 14⟩)) "" "   ").1.history =
      pushHistory [.text ⟨5, "hello", 0, 0, 14⟩] [] := by
  have h := handleSaveEdit_rejected ⟨[.text ⟨5, "hello", 0, 0, 14⟩], []⟩
    (.text ⟨5, "hello", 0, 0, 14⟩) "" "   "
    (Or.inr ⟨⟨5, "hello", 0, 0, 14⟩, rfl, by decide⟩)
  exact ⟨h.1, h.2.1⟩

/-- C8: a Line is in the marquee selection exactly when at least one of its
two endpoints lies inside the normalized query box; in particular the
concrete line from (-5,5) to (15,5) crosses clean through the box dragged
from (0,0) to (10,10) — its midpoint (5,5) is inside — yet is not selected,
since neither endpoint is inside. -/
theorem marquee_line_endpoints :
    (∀ (measure : String → ℚ) (items : List InventoryItem) (x1 y1 x2 y2 : ℚ)
        (l : LineItem),
      (docIds items).Nodup → InventoryItem.line l ∈ items →
      (l.id ∈ marqueeIds measure items x1 y1 x2 y2 ↔
        pointInBox l.x1 l.y1 (boxNorm x1 y1 x2 y2) = true ∨
        pointInBox l.x2 l.y2 (boxNorm x1 y1 x2 y2) = true)) ∧
    pointInBox ((-5 + 15) / 2) 5 (boxNorm 0 0 10 10) = true ∧
    pointInBox (-5) 5 (boxNorm 0 0 10 10) = false ∧
    pointInBox 15 5 (boxNorm 0 0 10 10) = false ∧
    (1 : ℚ) ∉ marqueeIds measure0 [.line ⟨1, -5, 5, 15, 5⟩] 0 0 10 10 := by
  refine ⟨?_, by norm_num [pointInBox, boxNorm], by norm_num [pointInBox, boxNorm],
    by norm_num [pointInBox, boxNorm],
    by norm_num [marqueeIds, marqueeMatch, pointInBox, boxNorm]⟩
  intro measure items x1 y1 x2 y2 l hnd hmem
  have hnd' : (items.map InventoryItem.id).Nodup := hnd
  constructor
  · intro hin
    simp only [marqueeIds, List.mem_map] at hin
    obtain ⟨it, hitf, hid⟩ := hin
    rw [List.mem_filter] at hitf
    obtain ⟨hitmem, hp⟩ := hitf
    have heq : it = .line l := List.inj_on_of_nodup_map hnd' hitmem hmem hid
    rw [heq] at hp
    simpa [marqueeMatch] using hp
  · intro hor
    have hp : marqueeMatch measure (boxNorm x1 y1 x2 y2) (.line l) = true := by
      simpa [marqueeMatch] using hor
    simp only [marqueeIds, List.mem_map]
    exact ⟨.line l, List.mem_filter.mpr ⟨hmem, hp⟩, rfl⟩

theorem marquee_line_endpoints_witness :
    (docIds [.line ⟨1, 0, 0, 20, 20⟩]).Nodup ∧
    InventoryItem.line ⟨1, 0, 0, 20, 20⟩ ∈ [InventoryItem.line ⟨1, 0, 0, 20, 20⟩] ∧
    ((1 : ℚ) ∈ marqueeIds measure0 [.line ⟨1, 0, 0, 20, 20⟩] 0 0 10 10 ↔
      pointInBox 0 0 (boxNorm 0 0 10 10) = true ∨
      pointInBox 20 20 (boxNorm 0 0 10 10) = true) :=
  ⟨by simp [docIds, InventoryItem.id], by simp,
    marquee_line_endpoints.1 measure0 [.line ⟨1, 0, 0, 20, 20⟩] 0 0 10 10
      ⟨1, 0, 0, 20, 20⟩ (by simp [docIds, InventoryItem.id]) (by simp)⟩

theorem undo_of_push (s : AppState) (X : List InventoryItem) :
    (handleUndo ⟨X, pushHistory s.items s.history⟩).items = s.items := by
  rw [handleUndo_pushHistory]

theorem handleBatch_shape (s : AppState) (oracle : Nat → ℤ × ℚ) (base f t : String)
    (mode : BatchMode) :
    handleBatch s oracle base f t mode = s ∨
    ∃ X, handleBatch s oracle base f t mode = ⟨X, pushHistory s.items s.history⟩ := by
  unfold handleBatch
  repeat' split
  all_goals first
    | exact Or.inl rfl
    | exact Or.inr ⟨_, rfl⟩

theorem handleSaveEdit_shape (s : AppState) (editing : Option InventoryItem)
    (nm content : String) :
    (handleSaveEdit s editing nm content).1 = s ∨
    ∃ X, (handleSaveEdit s editing nm content).1 = ⟨X, pushHistory s.items s.history⟩ := by
  unfold handleSaveEdit
  repeat' split
  all_goals first
    | exact Or.inl rfl
    | exact Or.inr ⟨_, rfl⟩

theorem handleSaveLocName_shape (s : AppState) (lid : Option ℚ) (nm : String) :
    handleSaveLocName s lid nm = s ∨
    ∃ X, handleSaveLocName s lid nm = ⟨X, pushHistory s.items s.history⟩ := by
  unfold handleSaveLocName
  repeat' split
  all_goals first
    | exact Or.inl rfl
    | exact Or.inr ⟨_, rfl⟩

theorem handleSync_state_shape (cfg : SyncConfig) (check : String → LocationCheckResult)
    (s : AppState) :
    (handleSync cfg check s).state = s ∨
    ∃ X, (handleSync cfg check s).state = ⟨X, pushHistory s.items s.history⟩ := by
  unfold handleSync
  dsimp only
  repeat' split
  all_goals first
    | exact Or.inl rfl
    | exact Or.inr ⟨_, rfl⟩

theorem deleteSelected_shape (s : AppState) (sel : List ℚ) :
    deleteSelected s sel = s ∨
    ∃ X, deleteSelected s sel = ⟨X, pushHistory s.items s.history⟩ := by
  unfold deleteSelected
  split
  · exact Or.inl rfl
  · exact Or.inr ⟨_, rfl⟩

/-- C3: every single mutating user operation — add (location, text, line),
batch add, a whole drag gesture, rename, text edit, delete, sync — snapshots
the document exactly once before mutating, so performing the operation and
then one undo restores the document to a value equal to its pre-operation
state; the rejected-input paths of the guarded operations (stated here as
the left disjunct `op = s`) do not mutate at all.  Undo on an empty history
stack is a complete no-op. -/
theorem undo_round_trip :
    (∀ (s : AppState) (now : ℤ) (rand : ℚ) (nm : String) (x y : ℚ) (st : Status),
      (handleUndo (addLocation s now rand nm x y st)).items = s.items) ∧
    (∀ (s : AppState) (now : ℤ) (rand : ℚ) (content : String) (x y : ℚ),
      (handleUndo (addText s now rand content x y)).items = s.items) ∧
    (∀ (s : AppState) (now : ℤ) (rand : ℚ) (x1 y1 x2 y2 : ℚ),
      (handleUndo (addLine s now rand x1 y1 x2 y2)).items = s.items) ∧
    (∀ (s : AppState) (oracle : Nat → ℤ × ℚ) (base f t : String) (mode : BatchMode),
      handleBatch s oracle base f t mode = s ∨
      (handleUndo (handleBatch s oracle base f t mode)).items = s.items) ∧
    (∀ (s : AppState) (ids : List ℚ) (px py sx0 sy0 : ℚ) (moves : List (ℚ × ℚ)),
      (handleUndo (dragGesture s ids px py sx0 sy0 moves)).items = s.items) ∧
    (∀ (s : AppState) (lid : Option ℚ) (nm : String),
      handleSaveLocName s lid nm = s ∨
      (handleUndo (handleSaveLocName s lid nm)).items = s.items) ∧
    (∀ (s : AppState) (editing : Option InventoryItem) (nm content : String),
      (handleSaveEdit s editing nm content).1 = s ∨
      (handleUndo (handleSaveEdit s editing nm content).1).items = s.items) ∧
    (∀ (s : AppState) (sel : List ℚ),
      deleteSelected s sel = s ∨
      (handleUndo (deleteSelected s sel)).items = s.items) ∧
    (∀ (cfg : SyncConfig) (check : String → LocationCheckResult) (s : AppState),
      (handleSync cfg check s).state = s ∨
      (handleUndo (handleSync cfg check s).state).items = s.items) ∧
    (∀ s : AppState, s.history = [] → handleUndo s = s) := by
  refine ⟨?_, ?_, ?_, ?_, ?_, ?_, ?_, ?_, ?_, ?_⟩
  · intro s now rand nm x y st
    unfold addLocation
    exact undo_of_push s _
  · intro s now rand content x y
    unfold addText
    exact undo_of_push s _
  · intro s now rand x1 y1 x2 y2
    unfold addLine
    exact undo_of_push s _
  · intro s oracle base f t mode
    rcases handleBatch_shape s oracle base f t mode with h | ⟨X, hX⟩
    · exact Or.inl h
    · right
      rw [hX]
      exact undo_of_push s X
  · intro s ids px py sx0 sy0 moves
    unfold dragGesture
    exact undo_of_push s _
  · intro s lid nm
    rcases handleSaveLocName_shape s lid nm with h | ⟨X, hX⟩
    · exact Or.inl h
    · right
      rw [hX]
      exact undo_of_push s X
  · intro s editing nm content
    rcases handleSaveEdit_shape s editing nm content with h | ⟨X, hX⟩
    · exact Or.inl h
    · right
      rw [hX]
      exact undo_of_push s X
  · intro s sel
    rcases deleteSelected_shape s sel with h | ⟨X, hX⟩
    · exact Or.inl h
    · right
      rw [hX]
      exact undo_of_push s X
  · intro cfg check s
    rcases handleSync_state_shape cfg check s with h | ⟨X, hX⟩
    · exact Or.inl h
    · right
      rw [hX]
      exact undo_of_push s X
  · intro s h
    simp [handleUndo, h]

theorem undo_round_trip_witness :
    (handleUndo (addLocation ⟨[], []⟩ 0 0 "A" 0 0 .green)).items = [] ∧
    handleUndo ⟨[], []⟩ = (⟨[], []⟩ : AppState) :=
  ⟨undo_round_trip.1 ⟨[], []⟩ 0 0 "A" 0 0 .green,
    undo_round_trip.2.2.2.2.2.2.2.2.2 ⟨[], []⟩ rfl⟩

theorem batchLoop_names (oracle : Nat → ℤ × ℚ) (mkName : ℤ → String) (start : ℤ) :
    ∀ (cnt k : Nat) (yOff xOff : ℚ),
      (batchLoop oracle mkName start k cnt yOff xOff).map (fun l => l.name) =
        (List.range cnt).map (fun j : ℕ => mkName (start + (k : ℤ) + (j : ℤ))) := by
  intro cnt
  induction cnt with
  | zero =>
    intro k yOff xOff
    simp [batchLoop]
  | succ n ih =>
    intro k yOff xOff
    have tail : ∀ yOff2 xOff2 : ℚ,
        (batchLoop oracle mkName start (k + 1) n yOff2 xOff2).map (fun l => l.name) =
          ((List.range n).map Nat.succ).map (fun j : ℕ => mkName (start + (k : ℤ) + (j : ℤ))) := by
      intro yOff2 xOff2
      rw [ih, List.map_map]
      apply List.map_congr_left
      intro j hj
      congr 1
      push_cast
      ring
    rw [List.range_succ_eq_map, List.map_cons]
    simp only [batchLoop, List.map_cons]
    congr 1
    · congr 1
      push_cast
      ring
    · split <;> exact tail _ _

/-- C5: batch creation with base "BIN" over the numeric range 1..10 appends
exactly the ten Locations BIN1..BIN10; base "ROW" over the letter range A..C
appends exactly ROWA, ROWB, ROWC; and every malformed input — empty or
whitespace-only base, non-numeric bounds, reversed bounds, letters outside
A–Z (as well as non-single-letter bounds) — creates nothing and leaves the
whole state (document and history) unchanged. -/
theorem batch_validity :
    (∀ (s : AppState) (oracle : Nat → ℤ × ℚ),
      ∃ new : List LocationItem,
        (handleBatch s oracle "BIN" "1" "10" .numbers).items = s.items ++ new.map .location ∧
        new.map (fun l => l.name) =
          ["BIN1", "BIN2", "BIN3", "BIN4", "BIN5", "BIN6", "BIN7", "BIN8", "BIN9", "BIN10"]) ∧
    (∀ (s : AppState) (oracle : Nat → ℤ × ℚ),
      ∃ new : List LocationItem,
        (handleBatch s oracle "ROW" "A" "C" .letters).items = s.items ++ new.map .location ∧
        new.map (fun l => l.name) = ["ROWA", "ROWB", "ROWC"]) ∧
    (∀ (s : AppState) (oracle : Nat → ℤ × ℚ) (base f t : String) (mode : BatchMode),
      (jsTrim base = "" ∨
        (mode = .numbers ∧ jsParseInt f = none) ∨
        (mode = .numbers ∧ jsParseInt t = none) ∨
        (mode = .numbers ∧ ∃ a b : ℤ, jsParseInt f = some a ∧ jsParseInt t = some b ∧ b < a) ∨
        (mode = .letters ∧ ∀ ca cb : Char,
          (jsToUpperCase (jsTrim f)).data = [ca] → (jsToUpperCase (jsTrim t)).data = [cb] →
          (cb.toNat < ca.toNat ∨ ca.toNat < 65 ∨ 90 < cb.toNat))) →
      handleBatch s oracle base f t mode = s) := by
  refine ⟨?_, ?_, ?_⟩
  · intro s oracle
    refine ⟨batchLoop oracle (fun v => jsTrimStart "BIN" ++ toString v) 1 0
      (((10 : ℤ) - 1 + 1).toNat) (GRID * 2) (GRID * 2), rfl, ?_⟩
    rw [batchLoop_names]
    decide
  · intro s oracle
    refine ⟨batchLoop oracle (fun v => jsTrimStart "ROW" ++ String.mk [Char.ofNat v.toNat])
      (('A'.toNat : ℤ)) 0 ('C'.toNat - 'A'.toNat + 1) (GRID * 2) (GRID * 2), rfl, ?_⟩
    rw [batchLoop_names]
    decide
  · intro s oracle base f t mode h
    by_cases hb : jsTrim base = ""
    · simp [handleBatch, hb]
    · rcases h with h | ⟨hm, hf⟩ | ⟨hm, ht⟩ | ⟨hm, a, b, hf, ht, hab⟩ | ⟨hm, hl⟩
      · exact absurd h hb
      · subst hm
        simp [handleBatch, hb, hf]
      · subst hm
        cases hf : jsParseInt f <;> simp [handleBatch, hb, hf, ht]
      · subst hm
        simp [handleBatch, hb, hf, ht, hab]
      · subst hm
        rcases hfa : (jsToUpperCase (jsTrim f)).data with _ | ⟨ca, rest⟩
        · simp [handleBatch, hb, hfa]
        · rcases rest with _ | ⟨c2, rest2⟩
          · rcases hta : (jsToUpperCase (jsTrim t)).data with _ | ⟨cb, restb⟩
            · simp [handleBatch, hb, hfa, hta]
            · rcases restb with _ | ⟨d2, restb2⟩
              · have hcon := hl ca cb hfa hta
                simp only [handleBatch, if_neg hb, hfa, hta]
                split_ifs with hgt hrange
                · rfl
                · rfl
                · exfalso
                  rcases hcon with h1 | h2 | h3
                  · exact hgt h1
                  · exact hrange (Or.inl h2)
                  · exact hrange (Or.inr h3)
              · simp [handleBatch, hb, hfa, hta]
          · simp [handleBatch, hb, hfa]

theorem batch_validity_witness :
    handleBatch ⟨[], []⟩ oracle0 "X" "10" "1" .numbers = ⟨[], []⟩ :=
  batch_validity.2.2 ⟨[], []⟩ oracle0 "X" "10" "1" .numbers
    (Or.inr (Or.inr (Or.inr (Or.inl ⟨rfl, 10, 1, by decide, by decide, by decide⟩))))

theorem docIds_append (a b : List InventoryItem) :
    docIds (a ++ b) = docIds a ++ docIds b := by
  simp [docIds]

theorem handleBatch_items_eq (s : AppState) (oracle : Nat → ℤ × ℚ) (base f t : String)
    (mode : BatchMode) :
    (handleBatch s oracle base f t mode).items =
      s.items ++ (handleBatch ⟨[], []⟩ oracle base f t mode).items := by
  by_cases hb : jsTrim base = ""
  · simp [handleBatch, hb]
  · cases mode
    · rcases hf : jsParseInt f with _ | a <;> rcases ht : jsParseInt t with _ | b <;>
        simp [handleBatch, if_neg hb, hf, ht] <;>
        (try split_ifs <;> simp)
    · rcases hfa : (jsToUpperCase (jsTrim f)).data with _ | ⟨ca, _ | ⟨c2, r2⟩⟩ <;>
        rcases hta : (jsToUpperCase (jsTrim t)).data with _ | ⟨cb, _ | ⟨d2, r4⟩⟩ <;>
        simp [handleBatch, if_neg hb, hfa, hta] <;>
        (try split_ifs <;> simp)

theorem docIds_applyOp_sublist (s : AppState) (op : DocOp) :
    (docIds (applyOp s op).items).Sublist (docIds s.items ++ issuedIdsOp op) := by
  cases op with
  | addLoc now rand nm x y =>
    simp [applyOp, addLocation, docIds, issuedIdsOp, InventoryItem.id]
  | addTxt now rand content x y =>
    simp [applyOp, addText, docIds, issuedIdsOp, InventoryItem.id]
  | addLn now rand x1 y1 x2 y2 =>
    simp [applyOp, addLine, docIds, issuedIdsOp, InventoryItem.id]
  | batch oracle b f t m =>
    have h := handleBatch_items_eq s oracle b f t m
    simp only [applyOp, issuedIdsOp]
    rw [h, docIds_append]
  | del ids =>
    simp only [applyOp, deleteSelected, issuedIdsOp]
    split
    · simp
    · simp only [docIds, List.append_nil]
      exact List.Sublist.map _ (List.filter_sublist _)

theorem docIds_applyOps_sublist (ops : List DocOp) : ∀ s : AppState,
    (docIds (applyOps s ops).items).Sublist (docIds s.items ++ issuedIds ops) := by
  induction ops with
  | nil =>
    intro s
    simp [applyOps, issuedIds]
  | cons op rest ih =>
    intro s
    have h3 : (docIds (applyOp s op).items ++ issuedIds rest).Sublist
        ((docIds s.items ++ issuedIdsOp op) ++ issuedIds rest) :=
      (docIds_applyOp_sublist s op).append (List.Sublist.refl _)
    have h4 := (ih (applyOp s op)).trans h3
    simpa [applyOps, issuedIds, List.append_assoc] using h4

/-- C4 counterexample: item ids are drawn as `Date.now() + Math.random()`
with no uniqueness check, so a collision of the entropy draws collides the
ids — two adds both drawing `now = 0, rand = 0` put two items with id 0 in
the document, refuting the claim that no two items can ever share an id. -/
theorem id_uniqueness_counterexample :
    ¬ (docIds (applyOps ⟨[], []⟩
        [.addLoc 0 0 "A" 0 0, .addLoc 0 0 "B" 0 0]).items).Nodup := by
  norm_num [applyOps, applyOp, addLocation, docIds, InventoryItem.id]

/-- C4 amended: ids are unique exactly as far as the entropy draws are —
for every sequence of add and batch-add operations interleaved with
deletions, if the drawn id values (`Date.now() + Math.random()` plus the
loop offset) are pairwise distinct and distinct from the initial document's
ids, then no two items in any resulting document share an id, and an id
absent from the document at any point (in particular one whose item was
deleted) never reappears later. -/
theorem id_uniqueness_amended (s0 : AppState) (ops : List DocOp)
    (h : (docIds s0.items ++ issuedIds ops).Nodup) :
    (docIds (applyOps s0 ops).items).Nodup ∧
    ∀ (pre post : List DocOp) (d : ℚ), ops = pre ++ post →
      d ∈ docIds s0.items ++ issuedIds pre →
      d ∉ docIds (applyOps s0 pre).items →
      d ∉ docIds (applyOps s0 (pre ++ post)).items := by
  constructor
  · exact List.Nodup.sublist (docIds_applyOps_sublist ops s0) h
  · intro pre post d hsplit hd hnotpre hfin
    subst hsplit
    have hsplit2 : applyOps s0 (pre ++ post) = applyOps (applyOps s0 pre) post := by
      simp [applyOps, List.foldl_append]
    rw [hsplit2] at hfin
    have hmem := (docIds_applyOps_sublist post (applyOps s0 pre)).subset hfin
    rcases List.mem_append.mp hmem with hcase | hcase
    · exact hnotpre hcase
    · have hN : ((docIds s0.items ++ issuedIds pre) ++ issuedIds post).Nodup := by
        simpa [issuedIds, List.append_assoc] using h
      exact (List.nodup_append.mp hN).2.2 hd hcase

theorem id_uniqueness_amended_witness :
    (docIds (⟨[], []⟩ : AppState).items ++
      issuedIds [.addLoc 0 0 "A" 0 0, .addLoc 1 0 "B" 0 0]).Nodup ∧
    (docIds (applyOps ⟨[], []⟩ [.addLoc 0 0 "A" 0 0, .addLoc 1 0 "B" 0 0]).items).Nodup := by
  have hh : (docIds (⟨[], []⟩ : AppState).items ++
      issuedIds [.addLoc 0 0 "A" 0 0, .addLoc 1 0 "B" 0 0]).Nodup := by
    norm_num [docIds, issuedIds, issuedIdsOp]
  exact ⟨hh, (id_uniqueness_amended ⟨[], []⟩ _ hh).1⟩

theorem syncLoop_batches (check : String → LocationCheckResult)
    (locations : List LocationItem) :
    ∀ (fuel i : Nat) (acc : List LocationCheckResult) (items : List InventoryItem),
      locations.length - i ≤ fuel →
      (syncLoop check locations i acc items fuel).1 =
        (List.range ((locations.length - i + 9) / 10)).map
          (fun b => (locations.drop (i + 10 * b)).take 10) := by
  intro fuel
  induction fuel with
  | zero =>
    intro i acc items hf
    have h0 : locations.length - i = 0 := Nat.le_zero.mp hf
    simp [syncLoop, h0]
  | succ n ih =>
    intro i acc items hf
    simp only [syncLoop, BATCH_SIZE]
    by_cases hi : i < locations.length
    · rw [if_pos hi]
      have hcount : (locations.length - i + 9) / 10 =
          ((locations.length - (i + 10) + 9) / 10) + 1 := by omega
      rw [ih (i + 10) _ _ (by omega), hcount, List.range_succ_eq_map, List.map_cons,
        List.map_map]
      have htail : (List.range ((locations.length - (i + 10) + 9) / 10)).map
            ((fun b => (locations.drop (i + 10 * b)).take 10) ∘ Nat.succ) =
          (List.range ((locations.length - (i + 10) + 9) / 10)).map
            (fun b => (locations.drop (i + 10 + 10 * b)).take 10) := by
        apply List.map_congr_left
        intro b hb
        have heq : i + 10 + 10 * b = i + 10 * (b + 1) := by omega
        simp only [Function.comp_apply, heq]
      rw [htail]
      norm_num
    · rw [if_neg hi]
      have h0 : locations.length - i = 0 := by omega
      simp [h0]

theorem syncLoop_progress (check : String → LocationCheckResult)
    (locations : List LocationItem) :
    ∀ (fuel i : Nat) (acc : List LocationCheckResult) (items : List InventoryItem),
      locations.length - i ≤ fuel →
      (syncLoop check locations i acc items fuel).2.1 =
        (List.range ((locations.length - i + 9) / 10)).map
          (fun b => min (i + 10 * b + 10) locations.length) := by
  intro fuel
  induction fuel with
  | zero =>
    intro i acc items hf
    have h0 : locations.length - i = 0 := Nat.le_zero.mp hf
    simp [syncLoop, h0]
  | succ n ih =>
    intro i acc items hf
    simp only [syncLoop, BATCH_SIZE]
    by_cases hi : i < locations.length
    · rw [if_pos hi]
      have hcount : (locations.length - i + 9) / 10 =
          ((locations.length - (i + 10) + 9) / 10) + 1 := by omega
      rw [ih (i + 10) _ _ (by omega), hcount, List.range_succ_eq_map, List.map_cons,
        List.map_map]
      have htail : (List.range ((locations.length - (i + 10) + 9) / 10)).map
            ((fun b => min (i + 10 * b + 10) locations.length) ∘ Nat.succ) =
          (List.range ((locations.length - (i + 10) + 9) / 10)).map
            (fun b => min (i + 10 + 10 * b + 10) locations.length) := by
        apply List.map_congr_left
        intro b hb
        simp only [Function.comp_apply]
        omega
      rw [htail]
    · rw [if_neg hi]
      have h0 : locations.length - i = 0 := by omega
      simp [h0]

theorem syncLoop_join (check : String → LocationCheckResult)
    (locations : List LocationItem) :
    ∀ (fuel i : Nat) (acc : List LocationCheckResult) (items : List InventoryItem),
      locations.length - i ≤ fuel →
      (syncLoop check locations i acc items fuel).1.flatten = locations.drop i := by
  intro fuel
  induction fuel with
  | zero =>
    intro i acc items hf
    have h0 : locations.length ≤ i := by omega
    simp [syncLoop, (List.drop_eq_nil_of_le h0).symm]
  | succ n ih =>
    intro i acc items hf
    simp only [syncLoop, BATCH_SIZE]
    by_cases hi : i < locations.length
    · rw [if_pos hi]
      simp only [List.flatten_cons]
      rw [ih (i + 10) _ _ (by omega)]
      have hdd : locations.drop (i + 10) = (locations.drop i).drop 10 := by
        rw [List.drop_drop]
      rw [hdd, List.take_append_drop]
    · rw [if_neg hi]
      have h0 : locations.length ≤ i := by omega
      simp [(List.drop_eq_nil_of_le h0).symm]

theorem chain_lt_min (n K : Nat) (hK : K = (n + 9) / 10) :
    List.Chain' (· < ·) ((List.range K).map (fun b => min (10 * b + 10) n)) := by
  rcases K with _ | m
  · simp
  · rw [List.chain'_map, List.chain'_range_succ]
    intro j hj
    omega

/-- C2: a sync pass over a document with `n ≥ 1` Locations partitions them,
in document order, into `⌈n/10⌉` batches — every batch of size
`min 10 (n - 10·b)`, i.e. full batches of 10 with a possibly smaller final
one, whose concatenation is exactly the location list — and the progress
value reported after batch `b` is `min (10·b + 10) n`, a strictly
increasing sequence (for n = 25: 3 batches of 10, 10, 5 and progress
10, 20, 25, as the witness instantiates). -/
theorem sync_batching (cfg : SyncConfig) (check : String → LocationCheckResult)
    (s : AppState)
    (h1 : jsTrim cfg.serverUrl ≠ "") (h2 : cfg.selectedSite ≠ none)
    (h3 : jsTrim cfg.username ≠ "") (h4 : jsTrim cfg.password ≠ "")
    (hn : 1 ≤ (syncLocations s.items).length) :
    (handleSync cfg check s).batches.length = ((syncLocations s.items).length + 9) / 10 ∧
    (handleSync cfg check s).batches.flatten = syncLocations s.items ∧
    (handleSync cfg check s).batches.map List.length =
      (List.range (((syncLocations s.items).length + 9) / 10)).map
        (fun b => min 10 ((syncLocations s.items).length - 10 * b)) ∧
    (handleSync cfg check s).progress =
      (List.range (((syncLocations s.items).length + 9) / 10)).map
        (fun b => min (10 * b + 10) (syncLocations s.items).length) ∧
    List.Chain' (· < ·) (handleSync cfg check s).progress := by
  have hguard : ¬(jsTrim cfg.serverUrl = "" ∨ cfg.selectedSite = none ∨
      jsTrim cfg.username = "" ∨ jsTrim cfg.password = "") := by
    push_neg
    exact ⟨h1, h2, h3, h4⟩
  have hne : (syncLocations s.items).isEmpty = false := by
    have : syncLocations s.items ≠ [] := by
      intro h0
      rw [h0] at hn
      simp at hn
    simpa [List.isEmpty_iff] using this
  have hb : (handleSync cfg check s).batches =
      (syncLoop check (syncLocations s.items) 0 [] s.items (syncLocations s.items).length).1 := by
    unfold handleSync
    rw [if_neg hguard]
    simp only [hne, Bool.false_eq_true, if_false]
  have hp : (handleSync cfg check s).progress =
      (syncLoop check (syncLocations s.items) 0 [] s.items (syncLocations s.items).length).2.1 := by
    unfold handleSync
    rw [if_neg hguard]
    simp only [hne, Bool.false_eq_true, if_false]
  have hfuel : (syncLocations s.items).length - 0 ≤ (syncLocations s.items).length := by omega
  have hbatch := syncLoop_batches check (syncLocations s.items)
    (syncLocations s.items).length 0 [] s.items hfuel
  have hprog := syncLoop_progress check (syncLocations s.items)
    (syncLocations s.items).length 0 [] s.items hfuel
  have hprog' : (handleSync cfg check s).progress =
      (List.range (((syncLocations s.items).length + 9) / 10)).map
        (fun b => min (10 * b + 10) (syncLocations s.items).length) := by
    rw [hp, hprog]
    norm_num
  refine ⟨?_, ?_, ?_, hprog', ?_⟩
  · rw [hb, hbatch]
    norm_num
  · rw [hb, syncLoop_join check (syncLocations s.items)
      (syncLocations s.items).length 0 [] s.items hfuel]
    simp
  · rw [hb, hbatch, List.map_map]
    norm_num
  · rw [hprog']
    exact chain_lt_min (syncLocations s.items).length _ rfl

theorem doc25_sync_len : (syncLocations doc25).length = 25 := by
  have h : syncLocations doc25 = (List.range 25).map mkLoc25 := by
    simp only [syncLocations, doc25, List.filterMap_map]
    have hfun : (InventoryItem.asLocation ∘ (fun k : ℕ =>
        InventoryItem.location (mkLoc25 k))) = some ∘ mkLoc25 := rfl
    rw [hfun, List.filterMap_eq_map]
  rw [h]
  simp

theorem sync_batching_witness :
    (handleSync cfg0 check0 ⟨doc25, []⟩).progress = [10, 20, 25] ∧
    (handleSync cfg0 check0 ⟨doc25, []⟩).batches.map List.length = [10, 10, 5] ∧
    (handleSync cfg0 check0 ⟨doc25, []⟩).batches.length = 3 := by
  have h := sync_batching cfg0 check0 ⟨doc25, []⟩ (by decide) (by decide) (by decide)
    (by decide) (by simp [doc25_sync_len])
  obtain ⟨hlen, hjoin, hsizes, hprog, hchain⟩ := h
  refine ⟨?_, ?_, ?_⟩
  · rw [hprog]
    rw [show (syncLocations (⟨doc25, []⟩ : AppState).items).length = 25 from doc25_sync_len]
    decide
  · rw [hsizes]
    rw [show (syncLocations (⟨doc25, []⟩ : AppState).items).length = 25 from doc25_sync_len]
    decide
  · rw [hlen]
    rw [show (syncLocations (⟨doc25, []⟩ : AppState).items).length = 25 from doc25_sync_len]

end InventoryUI
